import Mathlib

/-!
Verification development for the py-solc-x core (`solcx/install.py`,
`solcx/main.py`): a shallow embedding of the version-resolution and
installation state machine and of the compiler-output normalization layer,
together with theorems about the behaviour of the embedded functions.

Conventions of the embedding:
* Python strings are Lean `String`s; the character-level operations
  (`str.index`, slicing, `partition`, `lstrip`, `split`) are implemented
  explicitly on `List Char`.
* Machine-facing effects (the filesystem holding the installed binaries, the
  download counter, the process-wide `solc_version` global, the per-version
  install lock) are a state record `FS` threaded explicitly; a raised Python
  exception is an `err` result carrying the state at raise time.
* External collaborators (the HTTP client, the subprocess running the solc
  binary, the build toolchain) are an oracle record `PyEnv` fixing their
  observable outcomes; `json.loads` of an embedded document is an explicit
  `loads` function parameter.
-/

/-- Python exception values raised by the embedded code. -/
inductive PyErr where
  | valueError (msg : String)
  | typeError
  | keyError
  | attributeError (a : String)
  | downloadError (msg : String)
  | solcNotInstalled (msg : String)
  | solcError (msg : String)
  | contractsNotFound
  | calledProcessError
  | osError (msg : String)
deriving DecidableEq

/-- A semantic version `major.minor.patch`, the shape produced by
`semantic_version.Version` on the plain tags py-solc-x works with. -/
structure SemVer where
  major : Nat
  minor : Nat
  patch : Nat
deriving DecidableEq

/-- Strict lexicographic order on semantic versions (the total order of
semantic-versioning for plain `X.Y.Z` versions). -/
def verLtb (a b : SemVer) : Bool :=
  Nat.blt a.major b.major ||
    (Nat.beq a.major b.major &&
      (Nat.blt a.minor b.minor ||
        (Nat.beq a.minor b.minor && Nat.blt a.patch b.patch)))

/-- Non-strict version order. -/
def verLeb (a b : SemVer) : Bool :=
  verLtb a b || decide (a = b)

/-- The single decimal digit characters. -/
def digitCh (d : Nat) : Char :=
  match d with
  | 0 => '0' | 1 => '1' | 2 => '2' | 3 => '3' | 4 => '4'
  | 5 => '5' | 6 => '6' | 7 => '7' | 8 => '8' | _ => '9'

/-- Inverse of `digitCh`: the value of a decimal digit character. -/
def digitVal? (c : Char) : Option Nat :=
  if '0' ≤ c && c ≤ '9' then some (c.toNat - 48) else none

/-- Decimal rendering of a natural number, with explicit fuel so that the
definition is structural (the fuel `n` is always sufficient). -/
def renderNatAux : Nat → Nat → List Char
  | 0, n => [digitCh n]
  | fuel + 1, n =>
    if n < 10 then [digitCh n]
    else renderNatAux fuel (n / 10) ++ [digitCh (n % 10)]

/-- Decimal rendering of a natural number (`str(n)` in Python). -/
def renderNat (n : Nat) : List Char := renderNatAux n n

/-- Fold decimal digit characters into a number, failing on a non-digit. -/
def foldDigitsAux (acc : Nat) : List Char → Option Nat
  | [] => some acc
  | c :: rest =>
    match digitVal? c with
    | some d => foldDigitsAux (acc * 10 + d) rest
    | none => none

/-- Parse a strict decimal numeral the way `semantic_version.Version` accepts
a version component: non-empty, digits only, no leading zero. -/
def parseNum (l : List Char) : Option Nat :=
  match l with
  | [] => none
  | [c] => match digitVal? c with | some d => some d | none => none
  | c :: _ :: _ =>
    if c = '0' then none else foldDigitsAux 0 l

/-- Split a character list on every occurrence of a separator character
(`str.split(sep)` for a one-character separator). -/
def splitChar (sep : Char) : List Char → List (List Char)
  | [] => [[]]
  | c :: rest =>
    if c = sep then [] :: splitChar sep rest
    else
      match splitChar sep rest with
      | g :: gs => (c :: g) :: gs
      | [] => [[c]]

/-- Render a `SemVer` as `major.minor.patch` (what `str(Version)` yields for
a plain version). -/
def renderVer (t : SemVer) : List Char :=
  renderNat t.major ++ ('.' :: (renderNat t.minor ++ ('.' :: renderNat t.patch)))

/-- Parse a plain `major.minor.patch` version string the way
`semantic_version.Version` does (restricted to versions without
prerelease/build parts, the only shape py-solc-x's tags use). -/
def parseVersion (l : List Char) : Option SemVer :=
  match splitChar '.' l with
  | [a, b, c] =>
    match parseNum a, parseNum b, parseNum c with
    | some x, some y, some z => some ⟨x, y, z⟩
    | _, _, _ => none
  | _ => none

/-- `pat` is a prefix of `l` (the test done at one position by `str.index`
and `str.startswith`). -/
def leadsWith : List Char → List Char → Bool
  | [], _ => true
  | _ :: _, [] => false
  | p :: ps, c :: cs => p == c && leadsWith ps cs

/-- First index where `pat` occurs in `l` (`str.index` / `str.find`),
`none` when there is no occurrence. -/
def subIndexAux (pat : List Char) : List Char → Option Nat
  | [] => if leadsWith pat [] then some 0 else none
  | c :: rest =>
    if leadsWith pat (c :: rest) then some 0
    else (subIndexAux pat rest).map (· + 1)

/-- `s.index(pat)` as an `Option`. -/
def subIndex (s pat : String) : Option Nat :=
  subIndexAux pat.data s.data

/-- Python slice `s[a:b]` for nonnegative bounds. -/
def pySlice (s : String) (a b : Nat) : String :=
  String.mk ((s.data.take b).drop a)

/-- The third component of `s.partition(sep)`: everything after the first
occurrence of `sep`, or the empty string when `sep` does not occur. -/
def partitionAfter (s sep : String) : String :=
  match subIndex s sep with
  | none => ""
  | some i => String.mk (s.data.drop (i + sep.data.length))

/-- Membership of a string in a list of strings (a filesystem-directory or
installed-set test). -/
def memb (s : String) : List String → Bool
  | [] => false
  | x :: rest => if x = s then true else memb s rest

/-! ### `_select_pragma_version` (install.py lines 198-209)

The pragma string has all spaces removed and is split on `"||"`. Each
comparator set is then scanned with `re.findall` for the pattern
`(([<>]?=?|\^)\d+\.\d+\.\d+)+`: a *maximal run* of adjacent constraints forms
one regex match, and `findall` reports only the last repetition of the
capturing group of each match. The resulting constraint strings are handed to
`semantic_version.SimpleSpec` (which accepts exactly one expression argument:
zero or several findall results raise a `TypeError`), and `spec.select` picks
the greatest candidate matching the spec. -/

/-- A pragma comparison operator as matched by `[<>]?=?|\^`. -/
inductive PragOp where
  | blank | eq | lt | le | gt | ge | caret
deriving DecidableEq

/-- One `(operator, version)` constraint of a comparator set. -/
structure PragConstraint where
  op : PragOp
  ver : SemVer
deriving DecidableEq

/-- The exclusive upper bound of a caret constraint `^v`
(npm-style, as implemented by `semantic_version`). -/
def caretUpper (v : SemVer) : SemVer :=
  if v.major > 0 then ⟨v.major + 1, 0, 0⟩
  else if v.minor > 0 then ⟨0, v.minor + 1, 0⟩
  else ⟨0, 0, v.patch + 1⟩

/-- Whether version `v` matches one constraint, following
`semantic_version.SimpleSpec` semantics on plain versions. -/
def PragConstraint.sat (c : PragConstraint) (v : SemVer) : Bool :=
  match c.op with
  | .blank => decide (v = c.ver)
  | .eq => decide (v = c.ver)
  | .lt => verLtb v c.ver
  | .le => verLeb v c.ver
  | .gt => verLtb c.ver v
  | .ge => verLeb c.ver v
  | .caret => verLeb c.ver v && verLtb v (caretUpper c.ver)

/-- Greedy `\d+`: split off the maximal leading digit run. -/
def takeDigits : List Char → (List Char × List Char)
  | [] => ([], [])
  | c :: rest =>
    if c.isDigit then
      match takeDigits rest with
      | (ds, r) => (c :: ds, r)
    else ([], c :: rest)

/-- Numeric value of a digit run matched by `\d+` (the regex admits leading
zeros, so this is a plain fold). -/
def digitsVal (l : List Char) : Nat :=
  l.foldl (fun a c => a * 10 + (c.toNat - 48)) 0

/-- Match `\d+\.\d+\.\d+` at the head of the input, returning the version and
the unconsumed rest. -/
def matchTriple (l : List Char) : Option (SemVer × List Char) :=
  match takeDigits l with
  | ([], _) => none
  | (d1, r1) =>
    match r1 with
    | '.' :: r2 =>
      match takeDigits r2 with
      | ([], _) => none
      | (d2, r3) =>
        match r3 with
        | '.' :: r4 =>
          match takeDigits r4 with
          | ([], _) => none
          | (d3, r5) => some (⟨digitsVal d1, digitsVal d2, digitsVal d3⟩, r5)
        | _ => none
    | _ => none

/-- Match one repetition `([<>]?=?|\^)\d+\.\d+\.\d+` at the head of the
input. The regex alternation and option backtracking collapse to this direct
case split: whenever a longer operator is present but the digits fail, every
shorter alternative fails on a non-digit as well. -/
def matchOneConstraint (l : List Char) : Option (PragConstraint × List Char) :=
  match l with
  | '<' :: '=' :: r => (matchTriple r).map (fun p => (⟨.le, p.1⟩, p.2))
  | '<' :: r => (matchTriple r).map (fun p => (⟨.lt, p.1⟩, p.2))
  | '>' :: '=' :: r => (matchTriple r).map (fun p => (⟨.ge, p.1⟩, p.2))
  | '>' :: r => (matchTriple r).map (fun p => (⟨.gt, p.1⟩, p.2))
  | '=' :: r => (matchTriple r).map (fun p => (⟨.eq, p.1⟩, p.2))
  | '^' :: r => (matchTriple r).map (fun p => (⟨.caret, p.1⟩, p.2))
  | r => (matchTriple r).map (fun p => (⟨.blank, p.1⟩, p.2))

/-- Consume further repetitions of the group greedily, keeping only the most
recent one: this is what the capturing group of `(...)+` retains. -/
def lastRepAux (c : PragConstraint) : Nat → List Char → (PragConstraint × List Char)
  | 0, l => (c, l)
  | fuel + 1, l =>
    match matchOneConstraint l with
    | none => (c, l)
    | some (c', r) => lastRepAux c' fuel r

/-- One whole regex match of `(([<>]?=?|\^)\d+\.\d+\.\d+)+` at the head of
the input: the last repetition's group value and the unconsumed rest. -/
def matchRun (l : List Char) : Option (PragConstraint × List Char) :=
  match matchOneConstraint l with
  | none => none
  | some (c, r) => some (lastRepAux c l.length r)

/-- `re.findall` of the comparator pattern over a comparator-set string:
the group-1 value (the final repetition) of each non-overlapping match. -/
def findallAux : Nat → List Char → List PragConstraint
  | 0, _ => []
  | _, [] => []
  | fuel + 1, c :: rest =>
    match matchRun (c :: rest) with
    | some (con, r) => con :: findallAux fuel r
    | none => findallAux fuel rest

/-- `re.findall` with enough fuel for the whole string. -/
def findallConstraints (l : List Char) : List PragConstraint :=
  findallAux l.length l

/-- `SimpleSpec(*args).select(version_list)`: `SimpleSpec` takes exactly one
expression, so any other number of findall results raises `TypeError`;
`select` returns the greatest matching candidate, or `None`. -/
def simpleSpecSelect (cons : List PragConstraint) (version_list : List SemVer) :
    Except PyErr (Option SemVer) :=
  match cons with
  | [c] =>
    .ok (version_list.foldl
      (fun acc v =>
        if c.sat v then
          match acc with
          | none => some v
          | some m => if verLtb m v then some v else some m
        else acc)
      none)
  | _ => .error .typeError

/-- `str.replace(" ", "")`. -/
def stripSpaces (l : List Char) : List Char := l.filter (fun c => c ≠ ' ')

/-- `str.split(sep)` for a multi-character separator, non-overlapping,
left to right. -/
def splitSeqAux (sep : List Char) : Nat → List Char → List (List Char)
  | _, [] => [[]]
  | 0, l => [l]
  | fuel + 1, c :: rest =>
    if leadsWith sep (c :: rest) then
      [] :: splitSeqAux sep fuel ((c :: rest).drop sep.length)
    else
      match splitSeqAux sep fuel rest with
      | g :: gs => (c :: g) :: gs
      | [] => [[c]]

/-- `str.split(sep)`. -/
def splitSeq (sep l : List Char) : List (List Char) :=
  splitSeqAux sep l.length l

/-- The comparator-set loop body of `_select_pragma_version`: thread the
best selection so far through the comparator sets. -/
def selectLoop (version_list : List SemVer) :
    List (List Char) → Option SemVer → Except PyErr (Option SemVer)
  | [], acc => .ok acc
  | s :: rest, acc =>
    match simpleSpecSelect (findallConstraints s) version_list with
    | .error e => .error e
    | .ok selected =>
      let acc' :=
        match selected with
        | some sel =>
          match acc with
          | none => some sel
          | some v => if verLtb v sel then some sel else some v
        | none => acc
      selectLoop version_list rest acc'

/-- `_select_pragma_version(pragma_string, version_list)` (install.py
lines 198-209): strip spaces, split on `"||"`, scan each comparator set with
the comparator regex, select per set via `SimpleSpec`, and return the overall
best selection rendered with `str`, or `None`. -/
def _select_pragma_version (pragma_string : String) (version_list : List SemVer) :
    Except PyErr (Option String) :=
  let sets := splitSeq ['|', '|'] (stripSpaces pragma_string.data)
  match selectLoop version_list sets none with
  | .error e => .error e
  | .ok v => .ok (v.map (fun t => String.mk (renderVer t)))

/-! ### JSON values and the output-normalization layer (main.py) -/

/-- A parsed JSON document, the value universe `json.loads` produces. -/
inductive Json where
  | null
  | bool (b : Bool)
  | num (n : Int)
  | str (s : String)
  | arr (xs : List Json)
  | obj (fields : List (String × Json))

/-- Whether a JSON value is a string (the claim-level "structured,
non-string" test). -/
def Json.isStr : Json → Bool
  | .str _ => true
  | _ => false

/-- Dictionary lookup (`d[k]` / `d.get(k)`) on the insertion-ordered field
list of a JSON object. -/
def olookup (k : String) : List (String × Json) → Option Json
  | [] => none
  | (k', v) :: rest => if k' = k then some v else olookup k rest

/-- Dictionary assignment `d[k] = v`: replace the value in place when the key
exists, append otherwise (Python dicts keep the original key position). -/
def objSet (k : String) (v : Json) : List (String × Json) → List (String × Json)
  | [] => [(k, v)]
  | (k', v') :: rest =>
    if k' = k then (k', v) :: rest else (k', v') :: objSet k v rest

/-- Python truthiness of a JSON value (`bool(x)` for values coming from
`json.loads`). -/
def jsonTruthy : Json → Bool
  | .null => false
  | .bool b => b
  | .num n => !(n == 0)
  | .str s => !(s == "")
  | .arr xs => !xs.isEmpty
  | .obj fields => !fields.isEmpty

/-- `path_str.rsplit(":", maxsplit=1)[0]`: everything before the last colon,
or the whole string when there is none. -/
def lastColonIdx : List Char → Option Nat
  | [] => none
  | c :: rest =>
    match lastColonIdx rest with
    | some i => some (i + 1)
    | none => if c = ':' then some 0 else none

/-- The contract key's source-path part (the part before the last `:`). -/
def rsplitColon (s : String) : String :=
  match lastColonIdx s.data with
  | none => s
  | some i => String.mk (s.data.take i)

/-- The `abi` step of the contract loop (main.py lines 46-47): when the
contract record has an `abi` field, `json.loads` it in place. A non-string
`abi` would make `json.loads` raise `TypeError`. -/
def jsonLoadAbi (loads : String → Except PyErr Json)
    (fields : List (String × Json)) : Except PyErr (List (String × Json)) :=
  match olookup "abi" fields with
  | none => .ok fields
  | some (.str s) =>
    match loads s with
    | .error e => .error e
    | .ok v => .ok (objSet "abi" v fields)
  | some _ => .error .typeError

/-- The AST step of the contract loop (main.py lines 48-50): when
`sources.get(key, {})` carries an `"AST"`, hoist it into the contract record
under `"ast"`. On a non-dict `sources` the `.get` attribute access fails. -/
def hoistAst (sources : Json) (path_str : String)
    (fields : List (String × Json)) : Except PyErr (List (String × Json)) :=
  match sources with
  | .obj ss =>
    let key := rsplitColon path_str
    match (olookup key ss).getD (.obj []) with
    | .obj src =>
      match olookup "AST" src with
      | some ast => .ok (objSet "ast" ast fields)
      | none => .ok fields
    | _ => .ok fields
  | _ => .error (.attributeError "get")

/-- One iteration of the contract loop of `_parse_compiler_output`. -/
def processContract (loads : String → Except PyErr Json) (sources : Json)
    (path_str : String) (data : Json) : Except PyErr Json :=
  match data with
  | .obj fields =>
    match jsonLoadAbi loads fields with
    | .error e => .error e
    | .ok fields2 =>
      match hoistAst sources path_str fields2 with
      | .error e => .error e
      | .ok fields3 => .ok (.obj fields3)
  | _ => .error .typeError

/-- The whole contract loop, in insertion order. -/
def processContracts (loads : String → Except PyErr Json) (sources : Json) :
    List (String × Json) → Except PyErr (List (String × Json))
  | [] => .ok []
  | (k, d) :: rest =>
    match processContract loads sources k d with
    | .error e => .error e
    | .ok v =>
      match processContracts loads sources rest with
      | .error e => .error e
      | .ok vs => .ok ((k, v) :: vs)

/-- `_parse_compiler_output(stdoutdata)` (main.py lines 39-52), applied to the
already-`json.loads`-ed stdout document. `loads` stands for the nested
`json.loads` used on embedded ABI strings. -/
def _parse_compiler_output (loads : String → Except PyErr Json)
    (output : Json) : Except PyErr (List (String × Json)) :=
  match output with
  | .obj top =>
    let contracts := (olookup "contracts" top).getD (.obj [])
    let sources := (olookup "sources" top).getD (.obj [])
    match contracts with
    | .obj cs => processContracts loads sources cs
    | _ => .error (.attributeError "items")
  | _ => .error (.attributeError "get")

/-- `compile_source` (main.py lines 68-91), restricted to its output
processing: the wrapper invocation is the environment, `stdoutdata` is its
parsed stdout. Raises `ContractsNotFound` on an empty contracts map unless
`allow_empty` is set. -/
def compile_source (loads : String → Except PyErr Json) (allow_empty : Bool)
    (stdoutdata : Json) : Except PyErr (List (String × Json)) :=
  match _parse_compiler_output loads stdoutdata with
  | .error e => .error e
  | .ok contracts =>
    if contracts.isEmpty && !allow_empty then .error .contractsNotFound
    else .ok contracts

/-- `compile_files` (main.py lines 94-115): identical post-processing of the
wrapper stdout as `compile_source`. -/
def compile_files (loads : String → Except PyErr Json) (allow_empty : Bool)
    (stdoutdata : Json) : Except PyErr (List (String × Json)) :=
  match _parse_compiler_output loads stdoutdata with
  | .error e => .error e
  | .ok contracts =>
    if contracts.isEmpty && !allow_empty then .error .contractsNotFound
    else .ok contracts

/-- `"\n".join(msgs)`. -/
def joinNL : List String → String
  | [] => ""
  | [s] => s
  | s :: rest => s ++ "\n" ++ joinNL rest

/-- Python `x == "error"` for a JSON value `x`: string comparison, `False`
for any non-string. -/
def jsonEqStr (v : Json) (t : String) : Bool :=
  match v with
  | .str s => s == t
  | _ => false

/-- `error["severity"] == "error"` for one entry of the `errors` array:
subscripting a non-object raises `TypeError`, a missing key `KeyError`. -/
def severityIsError (e : Json) : Except PyErr Bool :=
  match e with
  | .obj f =>
    match olookup "severity" f with
    | some v => .ok (jsonEqStr v "error")
    | none => .error .keyError
  | _ => .error .typeError

/-- `any(error["severity"] == "error" for error in errors)`:
short-circuiting. -/
def anyError : List Json → Except PyErr Bool
  | [] => .ok false
  | e :: rest =>
    match severityIsError e with
    | .error err => .error err
    | .ok true => .ok true
    | .ok false => anyError rest

/-- The message comprehension of `compile_standard`: the `formattedMessage`
of every error-severity entry, in order. Joining a non-string message would
make `str.join` raise `TypeError`. -/
def errorMessagesM : List Json → Except PyErr (List String)
  | [] => .ok []
  | e :: rest =>
    match severityIsError e with
    | .error err => .error err
    | .ok true =>
      match e with
      | .obj f =>
        match olookup "formattedMessage" f with
        | some (.str s) =>
          match errorMessagesM rest with
          | .error err => .error err
          | .ok ms => .ok (s :: ms)
        | some _ => .error .typeError
        | none => .error .keyError
      | _ => .error .typeError
    | .ok false => errorMessagesM rest

/-- The `input_data.get("sources")` truthiness guard at the top of
`compile_standard` (main.py lines 119-126): `True` when the call must raise
`ContractsNotFound` absent `allow_empty`. -/
def inputSourcesMissing (input_data : Json) : Except PyErr Bool :=
  match input_data with
  | .obj top => .ok (!(jsonTruthy ((olookup "sources" top).getD .null)))
  | _ => .error (.attributeError "get")

/-- `compile_standard(input_data, allow_empty)` (main.py lines 118-151),
applied to the parsed stdout of the wrapper call (`compiler_output`). When
the output has an `errors` array with at least one error-severity entry, the
call raises `SolcError` carrying the newline-joined formatted messages of
exactly the error-severity entries; otherwise the full parsed payload is
returned. -/
def compile_standard (input_data : Json) (allow_empty : Bool)
    (compiler_output : Json) : Except PyErr Json :=
  match inputSourcesMissing input_data with
  | .error e => .error e
  | .ok missing =>
    if missing && !allow_empty then .error .contractsNotFound
    else
      match compiler_output with
      | .obj top =>
        match olookup "errors" top with
        | none => .ok compiler_output
        | some (.arr errors) =>
          match anyError errors with
          | .error e => .error e
          | .ok true =>
            match errorMessagesM errors with
            | .error e => .error e
            | .ok msgs => .error (.solcError (joinNL msgs))
          | .ok false => .ok compiler_output
        | some _ => .error .typeError
      | _ => .error .typeError

/-! ### `--version` output parsing (main.py lines 18-31, install.py 71-73) -/

/-- `get_solc_version_string` (main.py lines 18-31), applied to the stdout of
the wrapper's `--version` call: take the part after the first newline,
require it to start with `"Version: "`, and slice between
`index("Version: ") + 9` and `index("+")`. A missing `"+"` makes `str.index`
raise `ValueError`. -/
def get_solc_version_string (stdoutdata : String) : Except PyErr String :=
  let version_str := partitionAfter stdoutdata "\n"
  if version_str = "" || !(leadsWith "Version: ".data version_str.data) then
    .error (.solcError "Unable to extract version string from command output")
  else
    match subIndex version_str "Version: " with
    | none => .error (.valueError "substring not found")
    | some i =>
      match subIndex version_str "+" with
      | none => .error (.valueError "substring not found")
      | some j => .ok (pySlice version_str (i + 9) j)

/-- `_import_version` (install.py lines 71-73), applied to the decoded stdout
of `subprocess.check_output([path, "--version"])`: `"v"` prepended to the
slice between `index("Version: ") + 9` and the first `"+"` of the whole
output. -/
def _import_version (output : String) : Except PyErr String :=
  match subIndex output "Version: " with
  | none => .error (.valueError "substring not found")
  | some i =>
    match subIndex output "+" with
    | none => .error (.valueError "substring not found")
    | some j => .ok ("v" ++ pySlice output (i + 9) j)

/-! ### The installation state machine (install.py)

State of the world the installer mutates: the set of version tags that have
an entry `solc-<tag>` under the install root, the number of network downloads
performed, the process-wide `solc_version` global, whether this process holds
the per-version install lock, and an instrumentation counter of entries into
`install_solc` (used to express the retry protocol). -/

/-- The supported platform families returned by `_get_platform`. -/
inductive Plat where
  | linux | darwin | win32
deriving DecidableEq

/-- World state of the embedded installer. -/
structure FS where
  installed : List String
  downloads : Nat
  solcVersion : Option String
  lockHeld : Bool
  attempts : Nat
deriving DecidableEq

/-- Oracle for the external collaborators: the HTTP status code and body of
asset downloads, whether the post-install `solc --version` subprocess
succeeds, and whether the OSX cmake/make build succeeds. -/
structure PyEnv where
  status_code : Nat
  content : String
  verifyOk : Bool
  buildOk : Bool
deriving DecidableEq

/-- Result of running a stateful piece of the installer: Python exceptions
carry the state at raise time. -/
inductive PyResult (α : Type) where
  | ok (a : α) (fs : FS)
  | err (e : PyErr) (fs : FS)

/-- The final state of a stateful run, whether it returned or raised. -/
def PyResult.state : PyResult α → FS
  | .ok _ fs => fs
  | .err _ fs => fs

/-- Whether a stateful run returned normally. -/
def PyResult.isOk : PyResult α → Bool
  | .ok _ _ => true
  | .err _ _ => false

/-- A `requests` response: it has a `status_code` and a `content`. -/
structure HttpResponse where
  status_code : Nat
  content : String

/-- Python attribute access on a `requests` response for a numeric attribute:
only `status_code` exists; any other name raises `AttributeError`. -/
def HttpResponse.getattrNat (r : HttpResponse) (a : String) : Except PyErr Nat :=
  if a = "status_code" then .ok r.status_code else .error (.attributeError a)

/-- `_check_version(version)` (install.py lines 248-252):
`Version(version.lstrip("v"))`, the `>=0.4.11` floor, and the `f"v{version}"`
normalized rendering. -/
def _check_version (version : String) : Except PyErr String :=
  match parseVersion (version.data.dropWhile (fun c => c = 'v')) with
  | none => .error (.valueError "Invalid version string")
  | some t =>
    if verLtb t ⟨0, 4, 11⟩ then
      .error (.valueError "py-solc-x does not support solc versions <0.4.11")
    else .ok (String.mk ('v' :: renderVer t))

/-- `get_executable(version, solcx_binary_path)` (install.py lines 108-124):
fall back to the `solc_version` global, raise `SolcNotInstalled` when no
version is selected or the binary path does not exist; on win32 the path gets
`solc.exe` appended before the existence check. -/
def get_executable (p : Plat) (version : Option String) (fs : FS) :
    Except PyErr String :=
  match (match version with | some v => some v | none => fs.solcVersion) with
  | none =>
    .error (.solcNotInstalled
      "Solc is not installed. Call solcx.get_available_solc_versions() to view for available versions and solcx.install_solc() to install.")
  | some v =>
    let solc_bin := if p = .win32 then "solc-" ++ v ++ "/solc.exe" else "solc-" ++ v
    if memb v fs.installed then .ok solc_bin
    else
      .error (.solcNotInstalled
        ("solc " ++ v ++ " has not been installed. Use solcx.install_solc to install."))

/-- `set_solc_version(version)` (install.py lines 127-133): normalize,
validate against the installed set via `get_executable`, and only then
mutate the `solc_version` global. -/
def set_solc_version (p : Plat) (version : String) (fs : FS) : PyResult Unit :=
  match _check_version version with
  | .error e => .err e fs
  | .ok v =>
    match get_executable p (some v) fs with
    | .error e => .err e fs
    | .ok _ => .ok () { fs with solcVersion := some v }

/-- `_check_for_installed_version(version)` (install.py lines 269-274):
`False` (here `none`) when the install path already exists, otherwise the
target path. -/
def _check_for_installed_version (version : String) (fs : FS) : Option String :=
  if memb version fs.installed then none else some ("solc-" ++ version)

/-- `_download_solc(url, show_progress)` (install.py lines 285-304): perform
the network fetch (counted), then check the status code. The non-200 branch
formats its message with `response.status_url`, an attribute that does not
exist on a `requests` response (`status_code` does), so the intended
`DownloadError` is never built: the attribute access raises
`AttributeError` first. -/
def _download_solc (env : PyEnv) (url : String) (fs : FS) : PyResult String :=
  let fs' := { fs with downloads := fs.downloads + 1 }
  let response : HttpResponse := ⟨env.status_code, env.content⟩
  if response.status_code ≠ 200 then
    match HttpResponse.getattrNat response "status_url" with
    | .error e => .err e fs'
    | .ok s =>
      .err (.downloadError
        ("Received status code " ++ String.mk (renderNat s) ++
          " when attempting to download from " ++ url)) fs'
  else .ok response.content fs'

/-- `_install_solc_linux` (install.py lines 307-315): skip when already
installed; otherwise download the static binary, write it and chmod it. -/
def _install_solc_linux (env : PyEnv) (version : String) (fs : FS) : PyResult Unit :=
  let download := "https://github.com/ethereum/solidity/releases/download/" ++
    version ++ "/solc-static-linux"
  match _check_for_installed_version version fs with
  | none => .ok () fs
  | some _binary_path =>
    match _download_solc env download fs with
    | .err e fs' => .err e fs'
    | .ok _content fs' => .ok () { fs' with installed := version :: fs'.installed }

/-- `_install_solc_windows` (install.py lines 318-329): skip when already
installed; otherwise download the zip, extract to a temp folder and rename it
into the install root. -/
def _install_solc_windows (env : PyEnv) (version : String) (fs : FS) : PyResult Unit :=
  let download := "https://github.com/ethereum/solidity/releases/download/" ++
    version ++ "/solidity-windows.zip"
  match _check_for_installed_version version fs with
  | none => .ok () fs
  | some _install_folder =>
    match _download_solc env download fs with
    | .err e fs' => .err e fs'
    | .ok _content fs' => .ok () { fs' with installed := version :: fs'.installed }

/-- `_install_solc_osx` (install.py lines 332-377): reject 0.4.x outright
unless `allow_osx`, even before the installed check; otherwise skip when
installed, else download the source tarball and build it (the dependency
script's failure is only logged; a cmake/make failure raises `OSError`). -/
def _install_solc_osx (env : PyEnv) (version : String) (allow_osx : Bool)
    (fs : FS) : PyResult Unit :=
  if leadsWith "v0.4".data version.data && !allow_osx then
    .err (.valueError
      "Py-solc-x cannot build solc versions 0.4.x on OSX. To ignore this error, include allow_osx=True when calling solcx.install_solc()") fs
  else
    let download := "https://github.com/ethereum/solidity/releases/download/" ++
      version ++ "/solidity_" ++ String.mk (version.data.drop 1) ++ ".tar.gz"
    match _check_for_installed_version version fs with
    | none => .ok () fs
    | some _binary_path =>
      match _download_solc env download fs with
      | .err e fs' => .err e fs'
      | .ok _content fs' =>
        if env.buildOk then .ok () { fs' with installed := version :: fs'.installed }
        else
          .err (.osError
            "returned non-zero exit status while attempting to build solc from the source") fs'

/-- The post-install `solc --version` verification subprocess call
(`_check_subprocess_call`, install.py lines 255-262, as invoked at line 237). -/
def _check_subprocess_call (env : PyEnv) (fs : FS) : PyResult Unit :=
  if env.verifyOk then .ok () fs else .err .calledProcessError fs

/-- The tail of the `try:` block of `install_solc` (install.py lines
236-242): locate the executable, run the post-install verification call, and
activate the version when none is selected yet. -/
def install_tail (p : Plat) (env : PyEnv) (version : String) (fs : FS) :
    PyResult Unit :=
  match get_executable p (some version) fs with
  | .error e => .err e fs
  | .ok _binary_path =>
    match _check_subprocess_call env fs with
    | .err e fs' => .err e fs'
    | .ok _ fs' =>
      match fs'.solcVersion with
      | none => set_solc_version p version fs'
      | some _ => .ok () fs'

/-- The body of the `try:` block of `install_solc` (install.py lines
230-243): platform dispatch followed by `install_tail`. -/
def install_body (p : Plat) (env : PyEnv) (version : String) (allow_osx : Bool)
    (fs : FS) : PyResult Unit :=
  match (match p with
    | .linux => _install_solc_linux env version fs
    | .darwin => _install_solc_osx env version allow_osx fs
    | .win32 => _install_solc_windows env version fs) with
  | .err e fs' => .err e fs'
  | .ok _ fs' => install_tail p env version fs'

/-- Modelled from the spec: one observable interaction with the named
cross-process `InstallLock` of `solcx.utils.lock` (not part of the sources
under verification). `acquired` is the outcome of the non-blocking
`lock.acquire(False)`; when it is `false`, `installedAfterWait` tells whether
the competing process has installed the version by the time `lock.wait()`
returns (spec: "a named, filesystem-visible exclusive lock keyed by version
identifier, with a non-blocking try-acquire followed by a blocking wait for
release"). -/
structure LockEvent where
  acquired : Bool
  installedAfterWait : Bool
deriving DecidableEq

/-- Modelled from the spec: the `try/finally` of `install_solc` under a held
lock — on entry the lock is held, and it is released on the way out on both
the return and the raise path ("released in a guaranteed-cleanup block,
including on exception"). -/
def runLocked (body : FS → PyResult Unit) (fs : FS) : PyResult Unit :=
  match body { fs with lockHeld := true } with
  | .ok a fs' => .ok a { fs' with lockHeld := false }
  | .err e fs' => .err e { fs' with lockHeld := false }

/-- `install_solc(version, allow_osx, ...)` (install.py lines 218-245).
The lock-event list is the oracle of acquisition outcomes, consumed one
event per attempt; an empty list means the lock is free. On a failed
non-blocking acquire the call waits, re-checks the installed state, and
either returns or re-enters `install_solc` with the normalized version
(the source's `return install_solc(version, allow_osx)`). -/
def install_solc (p : Plat) (env : PyEnv) (version : String) (allow_osx : Bool) :
    List LockEvent → FS → PyResult Unit
  | oracle, fs =>
    let fs1 := { fs with attempts := fs.attempts + 1 }
    match _check_version version with
    | .error e => .err e fs1
    | .ok v =>
      match oracle with
      | [] => runLocked (install_body p env v allow_osx) fs1
      | ev :: rest =>
        if ev.acquired then runLocked (install_body p env v allow_osx) fs1
        else
          let fs2 := if ev.installedAfterWait then
            { fs1 with installed := v :: fs1.installed } else fs1
          match _check_for_installed_version v fs2 with
          | none => .ok () fs2
          | some _ => install_solc p env v allow_osx rest fs2

/-! ### Pure observers used to state properties of the output layer -/

/-- Whether one entry of the `errors` array is an object carrying string
`severity` and `formattedMessage` fields (the shape solc emits). -/
def errWF (e : Json) : Bool :=
  match e with
  | .obj f =>
    (match olookup "severity" f with | some (.str _) => true | _ => false) &&
    (match olookup "formattedMessage" f with | some (.str _) => true | _ => false)
  | _ => false

/-- Whether one entry of the `errors` array has severity `"error"`. -/
def sevIsErr (e : Json) : Bool :=
  match e with
  | .obj f =>
    match olookup "severity" f with
    | some (.str s) => s == "error"
    | _ => false
  | _ => false

/-- The `formattedMessage` string of one entry of the `errors` array. -/
def errMsgOf (e : Json) : Option String :=
  match e with
  | .obj f =>
    match olookup "formattedMessage" f with
    | some (.str s) => some s
    | _ => none
  | _ => none

/-- A field of the object held in an `Option Json`, or `none`. -/
def jsonField (k : String) : Option Json → Option Json
  | some (.obj fields) => olookup k fields
  | _ => none

/-- A standard-JSON input whose `sources` section is non-empty. -/
def exInput : Json := .obj [("sources", .obj [("a.sol", .str "contract A")])]

/-- Standard-JSON compiler output with a single error-severity entry whose
formatted message is `"X"`. -/
def exErrOut : Json :=
  .obj [("errors",
    .arr [.obj [("severity", .str "error"), ("formattedMessage", .str "X")]])]

/-- A concrete stand-in for the nested `json.loads`: it parses only the
document `"[]"`. -/
def exLoads : String → Except PyErr Json :=
  fun s => if s = "[]" then .ok (.arr []) else .error .typeError

/-- The field list of a combined-output payload with one contract carrying an
embedded ABI string and one AST-bearing source entry. -/
def exTop : List (String × Json) :=
  [("contracts",
     .obj [("a.sol:A", .obj [("abi", .str "[]"), ("bin", .str "60fe")])]),
   ("sources",
     .obj [("a.sol", .obj [("AST", .obj [("name", .str "root")])])])]

/-- Combined-output payload whose contracts map is empty: the parse of the
raw output that maps the key `contracts` to an empty object. -/
def exEmptyOut : Json := .obj [("contracts", .obj [])]

/-! ## Lemmas about decimal rendering and version parsing -/

theorem digitVal_digitCh (d : Nat) (h : d < 10) : digitVal? (digitCh d) = some d := by
  interval_cases d <;> rfl

theorem digitCh_ne_dot (d : Nat) (h : d < 10) : digitCh d ≠ '.' := by
  interval_cases d <;> decide

theorem digitCh_ne_v (d : Nat) (h : d < 10) : digitCh d ≠ 'v' := by
  interval_cases d <;> decide

theorem digitCh_ne_zero (d : Nat) (h1 : 1 ≤ d) (h2 : d < 10) : digitCh d ≠ '0' := by
  interval_cases d <;> decide

theorem renderNatAux_ne_nil (fuel n : Nat) : renderNatAux fuel n ≠ [] := by
  cases fuel with
  | zero => simp [renderNatAux]
  | succ m =>
    by_cases h : n < 10 <;> simp [renderNatAux, h]

theorem foldDigits_single (acc d : Nat) (h : d < 10) :
    foldDigitsAux acc [digitCh d] = some (acc * 10 + d) := by
  simp [foldDigitsAux, digitVal_digitCh d h]

theorem foldDigitsAux_append (acc : Nat) (xs ys : List Char) :
    foldDigitsAux acc (xs ++ ys) =
      match foldDigitsAux acc xs with
      | some a => foldDigitsAux a ys
      | none => none := by
  induction xs generalizing acc with
  | nil => simp [foldDigitsAux]
  | cons c rest ih =>
    simp only [List.cons_append, foldDigitsAux]
    cases digitVal? c with
    | none => rfl
    | some d => simp [ih]

theorem foldRender (fuel : Nat) : ∀ n acc, n ≤ fuel →
    foldDigitsAux acc (renderNatAux fuel n) =
      some (acc * 10 ^ (renderNatAux fuel n).length + n) := by
  induction fuel with
  | zero =>
    intro n acc h
    interval_cases n
    simp [renderNatAux, foldDigitsAux, digitVal?, digitCh]
  | succ m ih =>
    intro n acc h
    by_cases h10 : n < 10
    · simp only [renderNatAux, if_pos h10]
      rw [foldDigits_single acc n h10]
      simp
    · have hn' : n / 10 ≤ m := by
        have : n / 10 < n := Nat.div_lt_self (by omega) (by omega)
        omega
      simp only [renderNatAux, if_neg h10]
      rw [foldDigitsAux_append]
      rw [ih (n / 10) acc hn']
      simp only []
      rw [foldDigits_single _ (n % 10) (Nat.mod_lt n (by omega))]
      congr 1
      have hd : n / 10 * 10 + n % 10 = n := by omega
      simp [List.length_append, pow_succ]
      ring_nf
      omega

theorem renderNatAux_digits (fuel : Nat) : ∀ n, n ≤ fuel →
    ∀ c ∈ renderNatAux fuel n, ∃ d, d < 10 ∧ c = digitCh d := by
  induction fuel with
  | zero =>
    intro n h c hc
    interval_cases n
    simp [renderNatAux] at hc
    exact ⟨0, by omega, hc⟩
  | succ m ih =>
    intro n h c hc
    by_cases h10 : n < 10
    · simp [renderNatAux, if_pos h10] at hc
      exact ⟨n, h10, hc⟩
    · simp only [renderNatAux, if_neg h10, List.mem_append, List.mem_singleton] at hc
      rcases hc with hc | hc
      · have hn' : n / 10 ≤ m := by
          have : n / 10 < n := Nat.div_lt_self (by omega) (by omega)
          omega
        exact ih (n / 10) hn' c hc
      · exact ⟨n % 10, Nat.mod_lt n (by omega), hc⟩

theorem renderNat_digits (n : Nat) : ∀ c ∈ renderNat n, ∃ d, d < 10 ∧ c = digitCh d :=
  renderNatAux_digits n n (Nat.le_refl n)

theorem renderNat_no_dot (n : Nat) : ∀ c ∈ renderNat n, c ≠ '.' := by
  intro c hc
  obtain ⟨d, hd, rfl⟩ := renderNat_digits n c hc
  exact digitCh_ne_dot d hd

theorem renderNatAux_head_ne_zero (fuel : Nat) : ∀ n, n ≤ fuel → 1 ≤ n →
    ∀ c rest, renderNatAux fuel n = c :: rest → c ≠ '0' := by
  induction fuel with
  | zero => intro n h h1; omega
  | succ m ih =>
    intro n h h1 c rest heq
    by_cases h10 : n < 10
    · simp only [renderNatAux, if_pos h10] at heq
      cases heq
      exact digitCh_ne_zero n h1 h10
    · simp only [renderNatAux, if_neg h10] at heq
      have hne := renderNatAux_ne_nil m (n / 10)
      obtain ⟨c', rest', hx⟩ : ∃ c' rest', renderNatAux m (n / 10) = c' :: rest' := by
        cases hx : renderNatAux m (n / 10) with
        | nil => exact absurd hx hne
        | cons a b => exact ⟨a, b, rfl⟩
      rw [hx] at heq
      simp only [List.cons_append] at heq
      injection heq with h1 h2
      have hn' : n / 10 ≤ m := by
        have : n / 10 < n := Nat.div_lt_self (by omega) (by omega)
        omega
      rw [← h1]
      exact ih (n / 10) hn' (by omega) c' rest' hx

theorem parseNum_renderNat (n : Nat) : parseNum (renderNat n) = some n := by
  by_cases h10 : n < 10
  · have hr : renderNat n = [digitCh n] := by
      unfold renderNat
      cases hn : n with
      | zero => rfl
      | succ m => simp [renderNatAux, hn ▸ h10]
    rw [hr]
    simp [parseNum, digitVal_digitCh n h10]
  · have hsplit : renderNat n = renderNatAux (n - 1) (n / 10) ++ [digitCh (n % 10)] := by
      obtain ⟨m, rfl⟩ : ∃ m, n = m + 1 := ⟨n - 1, by omega⟩
      unfold renderNat
      simp only [renderNatAux, if_neg h10, Nat.add_sub_cancel]
    have hne := renderNatAux_ne_nil (n - 1) (n / 10)
    obtain ⟨c', rest', hx⟩ : ∃ c' rest', renderNatAux (n - 1) (n / 10) = c' :: rest' := by
      cases hx : renderNatAux (n - 1) (n / 10) with
      | nil => exact absurd hx hne
      | cons a b => exact ⟨a, b, rfl⟩
    have hfuel : n / 10 ≤ n - 1 := by
      have : n / 10 < n := Nat.div_lt_self (by omega) (by omega)
      omega
    have hhead : c' ≠ '0' :=
      renderNatAux_head_ne_zero (n - 1) (n / 10) hfuel
        (by have := Nat.div_le_div_right (c := 10) (Nat.le_of_not_lt h10); omega) c' rest' hx
    have hfold : foldDigitsAux 0 (renderNat n) = some n := by
      have := foldRender n n 0 (Nat.le_refl n)
      unfold renderNat at this ⊢
      simpa using this
    rw [hsplit, hx] at hfold ⊢
    cases rest' with
    | nil =>
      simp only [List.nil_append, List.singleton_append] at hfold ⊢
      rw [show parseNum [c', digitCh (n % 10)] =
        if c' = '0' then none else foldDigitsAux 0 [c', digitCh (n % 10)] from rfl]
      rw [if_neg hhead]
      exact hfold
    | cons a b =>
      simp only [List.cons_append] at hfold ⊢
      rw [show parseNum (c' :: a :: (b ++ [digitCh (n % 10)])) =
        if c' = '0' then none
        else foldDigitsAux 0 (c' :: a :: (b ++ [digitCh (n % 10)])) from rfl]
      rw [if_neg hhead]
      exact hfold

theorem splitChar_no_sep (sep : Char) (xs : List Char)
    (h : ∀ c ∈ xs, c ≠ sep) : splitChar sep xs = [xs] := by
  induction xs with
  | nil => rfl
  | cons c rest ih =>
    have hc : c ≠ sep := h c (List.mem_cons_self c rest)
    have hrest : splitChar sep rest = [rest] :=
      ih (fun x hx => h x (List.mem_cons_of_mem c hx))
    simp [splitChar, hc, hrest]

theorem splitChar_append_sep (sep : Char) (xs ys : List Char)
    (h : ∀ c ∈ xs, c ≠ sep) :
    splitChar sep (xs ++ sep :: ys) = xs :: splitChar sep ys := by
  induction xs with
  | nil => simp [splitChar]
  | cons c rest ih =>
    have hc : c ≠ sep := h c (List.mem_cons_self c rest)
    have hrest := ih (fun x hx => h x (List.mem_cons_of_mem c hx))
    simp only [List.cons_append, splitChar, if_neg hc, List.append_eq, hrest]

theorem parseVersion_renderVer (t : SemVer) : parseVersion (renderVer t) = some t := by
  have hmaj := renderNat_no_dot t.major
  have hmin := renderNat_no_dot t.minor
  have hpat := renderNat_no_dot t.patch
  have hsplit : splitChar '.' (renderVer t) =
      [renderNat t.major, renderNat t.minor, renderNat t.patch] := by
    unfold renderVer
    rw [splitChar_append_sep '.' _ _ hmaj]
    rw [splitChar_append_sep '.' _ _ hmin]
    rw [splitChar_no_sep '.' _ hpat]
  unfold parseVersion
  rw [hsplit]
  simp [parseNum_renderNat]

theorem renderNat_cons (n : Nat) : ∃ c rest, renderNat n = c :: rest ∧ c ≠ 'v' := by
  have hne := renderNatAux_ne_nil n n
  cases hx : renderNat n with
  | nil => exact absurd hx hne
  | cons c rest =>
    refine ⟨c, rest, rfl, ?_⟩
    have hc : c ∈ renderNat n := by rw [hx]; exact List.mem_cons_self c rest
    obtain ⟨d, hd, rfl⟩ := renderNat_digits n c hc
    exact digitCh_ne_v d hd

/-- Normalization is idempotent: re-checking an already-normalized version
string reproduces it. -/
theorem check_version_norm (t : SemVer) (hfloor : verLtb t ⟨0, 4, 11⟩ = false) :
    _check_version (String.mk ('v' :: renderVer t)) =
      .ok (String.mk ('v' :: renderVer t)) := by
  obtain ⟨c, rest, hr, hcv⟩ := renderNat_cons t.major
  have hdrop : ('v' :: renderVer t).dropWhile (fun c => c = 'v') = renderVer t := by
    unfold renderVer
    rw [hr]
    simp [List.dropWhile, hcv]
  unfold _check_version
  rw [show (String.mk ('v' :: renderVer t)).data = 'v' :: renderVer t from rfl]
  rw [hdrop, parseVersion_renderVer]
  simp [hfloor]

/-- Inversion of `_check_version`: a successful check yields the normalized
rendering of a version at or above the floor. -/
theorem check_version_inv (s v : String) (h : _check_version s = .ok v) :
    ∃ t : SemVer, verLtb t ⟨0, 4, 11⟩ = false ∧
      v = String.mk ('v' :: renderVer t) := by
  unfold _check_version at h
  split at h
  · exact Except.noConfusion h
  · rename_i t _hp
    split at h
    · exact Except.noConfusion h
    · rename_i hf
      have hf' : verLtb t ⟨0, 4, 11⟩ = false := by
        cases hb : verLtb t ⟨0, 4, 11⟩
        · rfl
        · exact absurd hb hf
      refine ⟨t, hf', ?_⟩
      injection h with h'
      exact h'.symm

/-- `_check_version` is idempotent on its own successful output. -/
theorem check_version_idem (s v : String) (h : _check_version s = .ok v) :
    _check_version v = .ok v := by
  obtain ⟨t, hfloor, rfl⟩ := check_version_inv s v h
  exact check_version_norm t hfloor

/-! ## Lemmas about the installation state machine -/

theorem memb_cons_self (v : String) (l : List String) : memb v (v :: l) = true := by
  simp [memb]

theorem runLocked_lockHeld (body : FS → PyResult Unit) (fs : FS) :
    (runLocked body fs).state.lockHeld = false := by
  unfold runLocked
  cases body { fs with lockHeld := true } <;> rfl

theorem install_tail_spec (p : Plat) (env : PyEnv) (v : String) (fs : FS)
    (hidem : _check_version v = .ok v) (hver : env.verifyOk = true)
    (hmem : memb v fs.installed = true) :
    install_tail p env v fs =
      .ok () { fs with solcVersion := some (fs.solcVersion.getD v) } := by
  obtain ⟨ins, dl, sv, lk, att⟩ := fs
  simp only [FS.mk.injEq] at hmem ⊢
  cases sv with
  | none =>
    simp [install_tail, get_executable, hmem, _check_subprocess_call, hver,
      set_solc_version, hidem, Option.getD]
  | some w =>
    simp [install_tail, get_executable, hmem, _check_subprocess_call, hver,
      Option.getD]

/-- Common postcondition of the three platform install steps under a
successful environment: nothing happens when the version is installed, one
download and a new entry otherwise. -/
theorem _install_solc_linux_spec (env : PyEnv) (v : String) (fs : FS)
    (h200 : env.status_code = 200) :
    _install_solc_linux env v fs =
      .ok () { fs with
        installed := if memb v fs.installed then fs.installed else v :: fs.installed,
        downloads := if memb v fs.installed then fs.downloads else fs.downloads + 1 } := by
  obtain ⟨ins, dl, sv, lk, att⟩ := fs
  cases hmem : memb v ins with
  | true =>
    simp [_install_solc_linux, _check_for_installed_version, hmem]
  | false =>
    simp [_install_solc_linux, _check_for_installed_version, hmem, _download_solc, h200]

theorem _install_solc_windows_spec (env : PyEnv) (v : String) (fs : FS)
    (h200 : env.status_code = 200) :
    _install_solc_windows env v fs =
      .ok () { fs with
        installed := if memb v fs.installed then fs.installed else v :: fs.installed,
        downloads := if memb v fs.installed then fs.downloads else fs.downloads + 1 } := by
  obtain ⟨ins, dl, sv, lk, att⟩ := fs
  cases hmem : memb v ins with
  | true =>
    simp [_install_solc_windows, _check_for_installed_version, hmem]
  | false =>
    simp [_install_solc_windows, _check_for_installed_version, hmem, _download_solc, h200]

theorem _install_solc_osx_spec (env : PyEnv) (v : String) (allow : Bool) (fs : FS)
    (h200 : env.status_code = 200) (hbuild : env.buildOk = true)
    (hosx : leadsWith "v0.4".data v.data = false ∨ allow = true) :
    _install_solc_osx env v allow fs =
      .ok () { fs with
        installed := if memb v fs.installed then fs.installed else v :: fs.installed,
        downloads := if memb v fs.installed then fs.downloads else fs.downloads + 1 } := by
  obtain ⟨ins, dl, sv, lk, att⟩ := fs
  have hcond : (leadsWith "v0.4".data v.data && !allow) = false := by
    rcases hosx with hsw | hal
    · simp [hsw]
    · simp [hal]
  cases hmem : memb v ins with
  | true =>
    simp [_install_solc_osx, hcond, _check_for_installed_version, hmem]
  | false =>
    simp [_install_solc_osx, hcond, _check_for_installed_version, hmem,
      _download_solc, h200, hbuild]

/-- Postcondition of the whole install body under a successful environment
and an idempotent (already-normalized) version string. -/
theorem install_body_spec (p : Plat) (env : PyEnv) (v : String) (allow : Bool)
    (fs : FS) (hidem : _check_version v = .ok v)
    (h200 : env.status_code = 200) (hver : env.verifyOk = true)
    (hbuild : env.buildOk = true)
    (hosx : p = .darwin → (leadsWith "v0.4".data v.data = false ∨ allow = true)) :
    install_body p env v allow fs =
      .ok () { fs with
        installed := if memb v fs.installed then fs.installed else v :: fs.installed,
        downloads := if memb v fs.installed then fs.downloads else fs.downloads + 1,
        solcVersion := some (fs.solcVersion.getD v) } := by
  have hmem' : memb v (if memb v fs.installed then fs.installed else v :: fs.installed) = true := by
    cases hmem : memb v fs.installed with
    | true => simp [hmem]
    | false => simp [memb_cons_self]
  cases p with
  | linux =>
    simp only [install_body, _install_solc_linux_spec env v fs h200]
    rw [install_tail_spec .linux env v _ hidem hver hmem']
  | darwin =>
    simp only [install_body, _install_solc_osx_spec env v allow fs h200 hbuild (hosx rfl)]
    rw [install_tail_spec .darwin env v _ hidem hver hmem']
  | win32 =>
    simp only [install_body, _install_solc_windows_spec env v fs h200]
    rw [install_tail_spec .win32 env v _ hidem hver hmem']

/-- Helper for the retry protocol: `n` contended attempts (each finding the
lock held and the version still absent) followed by a successful acquisition
perform the whole install once, after `n + 1` entries into `install_solc`. -/
theorem install_retry_run (p : Plat) (env : PyEnv) (v : String) (allow : Bool)
    (hidem : _check_version v = .ok v)
    (h200 : env.status_code = 200) (hver : env.verifyOk = true)
    (hbuild : env.buildOk = true)
    (hosx : p = .darwin → (leadsWith "v0.4".data v.data = false ∨ allow = true)) :
    ∀ (n : Nat) (s : String) (fs : FS), _check_version s = .ok v →
      memb v fs.installed = false →
      install_solc p env s allow
          (List.replicate n ⟨false, false⟩ ++ [⟨true, false⟩]) fs =
        .ok () (FS.mk (v :: fs.installed) (fs.downloads + 1)
          (some (fs.solcVersion.getD v)) false (fs.attempts + n + 1)) := by
  intro n
  induction n with
  | zero =>
    intro s fs hs hmem
    simp only [List.replicate, List.nil_append]
    rw [install_solc]
    simp only [hs]
    simp only [show (⟨true, false⟩ : LockEvent).acquired = true from rfl, if_true]
    simp only [runLocked]
    rw [install_body_spec p env v allow _ hidem h200 hver hbuild hosx]
    simp [hmem]
  | succ n ih =>
    intro s fs hs hmem
    rw [List.replicate_succ]
    simp only [List.cons_append]
    rw [install_solc]
    simp only [hs]
    simp only [show (⟨false, false⟩ : LockEvent).acquired = false from rfl,
      show (⟨false, false⟩ : LockEvent).installedAfterWait = false from rfl,
      Bool.false_eq_true, if_false, _check_for_installed_version]
    simp only [show ({ fs with attempts := fs.attempts + 1 } : FS).installed = fs.installed from rfl,
      hmem, Bool.false_eq_true, if_false]
    rw [ih v { fs with attempts := fs.attempts + 1 } hidem hmem]
    have harith : fs.attempts + 1 + n + 1 = fs.attempts + (n + 1) + 1 := by omega
    simp [harith]

/-- An environment in which every external step succeeds. -/
def envGood : PyEnv := ⟨200, "solc-binary", true, true⟩

/-- An environment whose asset download answers HTTP 404. -/
def env404 : PyEnv := ⟨404, "", true, true⟩

/-- A fresh world: nothing installed, no active version, lock free. -/
def fs0 : FS := ⟨[], 0, none, false, 0⟩

/-- A world with solc v0.4.25 already installed. -/
def fsOsx : FS := ⟨["v0.4.25"], 0, none, false, 0⟩

/-- An uncontended `install_solc` run under a successful environment:
its exact final state. -/
theorem install_solc_uncontended (p : Plat) (env : PyEnv) (s v : String)
    (allow : Bool) (fs : FS) (hcv : _check_version s = .ok v)
    (h200 : env.status_code = 200) (hver : env.verifyOk = true)
    (hbuild : env.buildOk = true)
    (hosx : p = .darwin → (leadsWith "v0.4".data v.data = false ∨ allow = true)) :
    install_solc p env s allow [] fs =
      .ok () (FS.mk
        (if memb v fs.installed then fs.installed else v :: fs.installed)
        (if memb v fs.installed then fs.downloads else fs.downloads + 1)
        (some (fs.solcVersion.getD v))
        false (fs.attempts + 1)) := by
  rw [install_solc]
  simp only [hcv]
  simp only [runLocked]
  rw [install_body_spec p env v allow _ (check_version_idem s v hcv) h200 hver hbuild hosx]

/-! ## Claim theorems: installation (C2, C3, C4) -/

/-- C2 (counterexample): on darwin, with solc v0.4.25 already installed
(a valid version at or above the 0.4.11 floor) and `allow_osx` left at its
default, `install_solc` raises `ValueError` instead of reporting success —
`_install_solc_osx` rejects 0.4.x before its installed-state check, so the
claimed unconditional idempotence fails. -/
theorem C2_counterexample :
    _check_version "0.4.25" = .ok "v0.4.25" ∧
    memb "v0.4.25" fsOsx.installed = true ∧
    (install_solc .darwin envGood "0.4.25" false [] fsOsx).isOk = false :=
  ⟨rfl, rfl, rfl⟩

/-- C2 (amended): for every supported platform and valid version at or above
the floor, `install_solc` is idempotent — an installed version is never
re-downloaded, both of two sequential calls succeed and together download at
most once — except on darwin for 0.4.x versions without `allow_osx`, where
the call raises `ValueError` even when the version is already installed. -/
theorem C2_install_idempotent_amended (p : Plat) (env : PyEnv) (s v : String)
    (allow : Bool) (fs : FS)
    (hcv : _check_version s = .ok v)
    (h200 : env.status_code = 200) (hver : env.verifyOk = true)
    (hbuild : env.buildOk = true)
    (hosx : p = .darwin → (leadsWith "v0.4".data v.data = false ∨ allow = true)) :
    (install_solc p env s allow [] fs).isOk = true ∧
    (memb v fs.installed = true →
      (install_solc p env s allow [] fs).state.downloads = fs.downloads) ∧
    (install_solc p env s allow [] fs).state.downloads ≤ fs.downloads + 1 ∧
    (install_solc p env s allow []
        ((install_solc p env s allow [] fs).state)).isOk = true ∧
    (install_solc p env s allow []
        ((install_solc p env s allow [] fs).state)).state.downloads =
      (install_solc p env s allow [] fs).state.downloads := by
  have h1 := install_solc_uncontended p env s v allow fs hcv h200 hver hbuild hosx
  rw [h1]
  simp only [PyResult.state]
  have hmem1 : memb v (FS.mk
      (if memb v fs.installed then fs.installed else v :: fs.installed)
      (if memb v fs.installed then fs.downloads else fs.downloads + 1)
      (some (fs.solcVersion.getD v)) false (fs.attempts + 1)).installed = true := by
    cases hmem : memb v fs.installed with
    | true => simp [hmem]
    | false => simp [hmem, memb_cons_self]
  have h2 := install_solc_uncontended p env s v allow
    (FS.mk (if memb v fs.installed then fs.installed else v :: fs.installed)
      (if memb v fs.installed then fs.downloads else fs.downloads + 1)
      (some (fs.solcVersion.getD v)) false (fs.attempts + 1))
    hcv h200 hver hbuild hosx
  rw [h2]
  refine ⟨rfl, ?_, ?_, rfl, ?_⟩
  · intro hmem
    simp [hmem]
  · cases hmem : memb v fs.installed with
    | true => simp [hmem]
    | false => simp [hmem]
  · simp only [PyResult.state, hmem1, if_true]

/-- C2 (witness): a fresh linux install followed by a second call — both
succeed, exactly one download. -/
theorem C2_install_idempotent_amended_witness :
    _check_version "0.8.1" = .ok "v0.8.1" ∧
    ((install_solc .linux envGood "0.8.1" false [] fs0).isOk = true ∧
      (memb "v0.8.1" fs0.installed = true →
        (install_solc .linux envGood "0.8.1" false [] fs0).state.downloads = fs0.downloads) ∧
      (install_solc .linux envGood "0.8.1" false [] fs0).state.downloads ≤ fs0.downloads + 1 ∧
      (install_solc .linux envGood "0.8.1" false []
          ((install_solc .linux envGood "0.8.1" false [] fs0).state)).isOk = true ∧
      (install_solc .linux envGood "0.8.1" false []
          ((install_solc .linux envGood "0.8.1" false [] fs0).state)).state.downloads =
        (install_solc .linux envGood "0.8.1" false [] fs0).state.downloads) :=
  ⟨rfl, C2_install_idempotent_amended .linux envGood "0.8.1" "v0.8.1" false fs0
    rfl rfl rfl rfl (fun h => Plat.noConfusion h)⟩

/-- C3 (counterexample): with the lock held twice in a row (and the version
still absent after each wait), `install_solc` enters three times — the
initial call plus two retries — refuting "retries the whole install exactly
once (no further retries)". The run still completes with one download. -/
theorem C3_counterexample :
    fs0.attempts = 0 ∧
    (install_solc .linux envGood "0.5.0" false
      [⟨false, false⟩, ⟨false, false⟩, ⟨true, false⟩] fs0).state.attempts = 3 ∧
    (install_solc .linux envGood "0.5.0" false
      [⟨false, false⟩, ⟨false, false⟩, ⟨true, false⟩] fs0).isOk = true :=
  ⟨rfl, rfl, rfl⟩

/-- C3 (amended): when the non-blocking acquisition fails, the call waits
and re-checks the installed state; if the version is now installed it
returns success without downloading; otherwise it retries the whole install
recursively — one fresh attempt per failed acquisition, with no retry bound,
until an acquisition succeeds and the install runs once. -/
theorem C3_lock_wait_retry_amended (p : Plat) (env : PyEnv) (s v : String)
    (allow : Bool) (fs : FS) (rest : List LockEvent)
    (hcv : _check_version s = .ok v) :
    (install_solc p env s allow (⟨false, true⟩ :: rest) fs =
      .ok () (FS.mk (v :: fs.installed) fs.downloads fs.solcVersion
        fs.lockHeld (fs.attempts + 1))) ∧
    (env.status_code = 200 → env.verifyOk = true → env.buildOk = true →
      (p = .darwin → (leadsWith "v0.4".data v.data = false ∨ allow = true)) →
      memb v fs.installed = false →
      ∀ n, install_solc p env s allow
          (List.replicate n ⟨false, false⟩ ++ [⟨true, false⟩]) fs =
        .ok () (FS.mk (v :: fs.installed) (fs.downloads + 1)
          (some (fs.solcVersion.getD v)) false (fs.attempts + n + 1))) := by
  constructor
  · rw [install_solc]
    simp only [hcv]
    simp only [show (⟨false, true⟩ : LockEvent).acquired = false from rfl,
      show (⟨false, true⟩ : LockEvent).installedAfterWait = true from rfl,
      Bool.false_eq_true, if_false, if_true, _check_for_installed_version]
    simp [memb_cons_self]
  · intro h200 hver hbuild hosx hmem n
    exact install_retry_run p env v allow (check_version_idem s v hcv)
      h200 hver hbuild hosx n s fs hcv hmem

/-- C3 (witness): a contended acquisition whose wait ends with the version
installed by the other process — success, no download, no retry. -/
theorem C3_lock_wait_retry_amended_witness :
    install_solc .linux envGood "0.8.1" false [⟨false, true⟩] fs0 =
      .ok () (FS.mk ["v0.8.1"] 0 none false 1) :=
  (C3_lock_wait_retry_amended .linux envGood "0.8.1" "v0.8.1" false fs0 [] rfl).1

/-- C4: whenever `install_solc` runs from a state in which this process does
not hold the per-version install lock, the lock is not held after the call
returns or raises — the `try/finally` releases it on every exit path,
including download, verification and activation failures (all reachable
through the environment oracle). -/
theorem C4_install_lock_released (p : Plat) (env : PyEnv) (s : String)
    (allow : Bool) (oracle : List LockEvent) (fs : FS)
    (h : fs.lockHeld = false) :
    (install_solc p env s allow oracle fs).state.lockHeld = false := by
  induction oracle generalizing s fs with
  | nil =>
    rw [install_solc]
    cases hcv : _check_version s with
    | error e => simp [hcv, PyResult.state, h]
    | ok v =>
      simp only [hcv]
      exact runLocked_lockHeld _ _
  | cons ev rest ih =>
    rw [install_solc]
    cases hcv : _check_version s with
    | error e => simp [hcv, PyResult.state, h]
    | ok v =>
      simp only [hcv]
      cases hacq : ev.acquired with
      | true =>
        simp only [hacq, if_true]
        exact runLocked_lockHeld _ _
      | false =>
        simp only [hacq, Bool.false_eq_true, if_false]
        cases hiw : ev.installedAfterWait with
        | true =>
          simp only [hiw, if_true, _check_for_installed_version]
          simp [memb_cons_self, PyResult.state, h]
        | false =>
          simp only [hiw, Bool.false_eq_true, if_false, _check_for_installed_version]
          cases hmem : memb v ({ fs with attempts := fs.attempts + 1 } : FS).installed with
          | true => simp [hmem, PyResult.state, h]
          | false =>
            simp only [hmem, Bool.false_eq_true, if_false]
            exact ih v { fs with attempts := fs.attempts + 1 } h

/-- C4 (witness): an uncontended install on a fresh linux world leaves the
lock released. -/
theorem C4_install_lock_released_witness :
    fs0.lockHeld = false ∧
    (install_solc .linux envGood "0.8.1" false [] fs0).state.lockHeld = false :=
  ⟨rfl, C4_install_lock_released .linux envGood "0.8.1" false [] fs0 rfl⟩

/-! ## Claim theorems: range selection (C1), download failure (C9),
active-version registry (C10) -/

/-- C1: evaluation of `_select_pragma_version` at a failing input. For the
range expression `">=0.5.0 <0.6.0"` (one comparator set whose constraints are
`>=0.5.0` and `<0.6.0`) and candidate list `[0.4.0]`, the claim requires
`None`, since 0.4.0 violates `>=0.5.0`. The code instead returns `"0.4.0"`:
after space removal the two constraints are adjacent, the `(...)+` regex
swallows them into one match whose capturing group retains only the last
repetition `<0.6.0`, and `re.findall` therefore drops the lower bound. The
second conjunct records that the returned candidate indeed violates the
dropped constraint. -/
theorem C1_select_pragma_eval :
    _select_pragma_version ">=0.5.0 <0.6.0" [⟨0, 4, 0⟩] = .ok (some "0.4.0") ∧
    PragConstraint.sat ⟨.ge, ⟨0, 5, 0⟩⟩ ⟨0, 4, 0⟩ = false :=
  ⟨rfl, rfl⟩

/-- C9: evaluating `_download_solc` at a non-200 response. The error branch
formats its message with `response.status_url`; a `requests` response has no
such attribute (the field is `status_code`), so the attribute access raises
`AttributeError` and the `DownloadError` carrying the status and URL — what
the claim and the message text "Received status code" intend — is never
raised. The download itself (one network fetch) has already happened. -/
theorem C9_download_attribute_error :
    _download_solc env404
        "https://github.com/ethereum/solidity/releases/download/v0.8.1/solc-static-linux"
        fs0 =
      .err (.attributeError "status_url") (FS.mk [] 1 none false 0) :=
  rfl

/-- C10: `set_solc_version` validates the normalized version against the
installed set before touching the `solc_version` global: when the version is
not installed it raises `SolcNotInstalled` and returns the state unchanged;
only when it is installed does it update the global to the normalized
version. -/
theorem C10_set_version_validates (p : Plat) (s v : String) (fs : FS)
    (hcv : _check_version s = .ok v) :
    (memb v fs.installed = false →
      set_solc_version p s fs =
        .err (.solcNotInstalled
          ("solc " ++ v ++ " has not been installed. Use solcx.install_solc to install."))
          fs) ∧
    (memb v fs.installed = true →
      set_solc_version p s fs = .ok () { fs with solcVersion := some v }) := by
  constructor
  · intro hmem
    simp [set_solc_version, hcv, get_executable, hmem]
  · intro hmem
    simp [set_solc_version, hcv, get_executable, hmem]

/-- C10 (witness): setting an uninstalled version fails with
`SolcNotInstalled` and does not change the state. -/
theorem C10_set_version_validates_witness :
    _check_version "0.8.1" = .ok "v0.8.1" ∧
    memb "v0.8.1" fs0.installed = false ∧
    set_solc_version .linux "0.8.1" fs0 =
      .err (.solcNotInstalled
        "solc v0.8.1 has not been installed. Use solcx.install_solc to install.") fs0 :=
  ⟨rfl, rfl,
    (C10_set_version_validates .linux "0.8.1" "v0.8.1" fs0 rfl).1 rfl⟩

/-! ## Lemmas about the output-normalization layer -/

theorem olookup_objSet_self (k : String) (v : Json) (l : List (String × Json)) :
    olookup k (objSet k v l) = some v := by
  induction l with
  | nil => simp [objSet, olookup]
  | cons kv rest ih =>
    obtain ⟨k', v'⟩ := kv
    by_cases h : k' = k
    · subst h
      simp [objSet, olookup]
    · simp [objSet, olookup, h, ih]

theorem olookup_objSet_ne (k k' : String) (v : Json) (l : List (String × Json))
    (h : k' ≠ k) : olookup k (objSet k' v l) = olookup k l := by
  induction l with
  | nil => simp [objSet, olookup, h]
  | cons kv rest ih =>
    obtain ⟨a, b⟩ := kv
    by_cases ha : a = k'
    · subst ha
      simp [objSet, olookup, h]
    · simp only [objSet, if_neg ha, olookup]
      by_cases hak : a = k
      · simp [hak]
      · simp [hak, ih]

theorem severityIsError_wf (e : Json) (h : errWF e = true) :
    severityIsError e = .ok (sevIsErr e) := by
  cases e with
  | obj f =>
    simp only [errWF] at h
    cases hsev : olookup "severity" f with
    | none => rw [hsev] at h; simp at h
    | some v =>
      rw [hsev] at h
      cases v <;> simp_all [severityIsError, sevIsErr, jsonEqStr, hsev]
  | null => simp [errWF] at h
  | bool b => simp [errWF] at h
  | num n => simp [errWF] at h
  | str s => simp [errWF] at h
  | arr xs => simp [errWF] at h

theorem errMsg_wf (e : Json) (h : errWF e = true) :
    ∃ f s, e = .obj f ∧ olookup "formattedMessage" f = some (.str s) ∧
      errMsgOf e = some s := by
  cases e with
  | obj f =>
    simp only [errWF] at h
    cases hm : olookup "formattedMessage" f with
    | none => rw [hm] at h; simp at h
    | some v =>
      rw [hm] at h
      cases v <;> simp_all [errMsgOf, hm]
  | null => simp [errWF] at h
  | bool b => simp [errWF] at h
  | num n => simp [errWF] at h
  | str s => simp [errWF] at h
  | arr xs => simp [errWF] at h

theorem anyError_wf (es : List Json) (h : ∀ e ∈ es, errWF e = true) :
    anyError es = .ok (es.any sevIsErr) := by
  induction es with
  | nil => rfl
  | cons e rest ih =>
    have he := severityIsError_wf e (h e (List.mem_cons_self e rest))
    have hrest := ih (fun x hx => h x (List.mem_cons_of_mem e hx))
    simp only [anyError, he, List.any_cons]
    cases hs : sevIsErr e with
    | true => simp
    | false => simp [hrest]

theorem errorMessagesM_wf (es : List Json) (h : ∀ e ∈ es, errWF e = true) :
    errorMessagesM es =
      .ok (es.filterMap (fun e => if sevIsErr e then errMsgOf e else none)) := by
  induction es with
  | nil => rfl
  | cons e rest ih =>
    have he := severityIsError_wf e (h e (List.mem_cons_self e rest))
    have hrest := ih (fun x hx => h x (List.mem_cons_of_mem e hx))
    simp only [errorMessagesM, he]
    cases hs : sevIsErr e with
    | false => simp [hrest, List.filterMap_cons, hs]
    | true =>
      obtain ⟨f, s, rfl, hm, hmsg⟩ := errMsg_wf e (h e (List.mem_cons_self e rest))
      simp only [hm, hrest, List.filterMap_cons, hs, if_true, hmsg]

theorem processContracts_lookup (loads : String → Except PyErr Json)
    (src : Json) (cs res : List (String × Json)) (k : String) (d : Json)
    (hres : processContracts loads src cs = .ok res)
    (hk : olookup k cs = some d) :
    ∃ v, processContract loads src k d = .ok v ∧ olookup k res = some v := by
  induction cs generalizing res with
  | nil => simp [olookup] at hk
  | cons kv rest ih =>
    obtain ⟨k', d'⟩ := kv
    simp only [processContracts] at hres
    cases hpc : processContract loads src k' d' with
    | error e => rw [hpc] at hres; exact Except.noConfusion hres
    | ok v' =>
      rw [hpc] at hres
      cases hrest : processContracts loads src rest with
      | error e => rw [hrest] at hres; exact Except.noConfusion hres
      | ok vs =>
        rw [hrest] at hres
        injection hres with hres'
        subst hres'
        by_cases hkk : k' = k
        · subst hkk
          simp only [olookup, if_pos rfl] at hk
          injection hk with hk'
          subst hk'
          exact ⟨v', hpc, by simp [olookup]⟩
        · simp only [olookup, if_neg hkk] at hk
          obtain ⟨v, h1, h2⟩ := ih vs hrest hk
          exact ⟨v, h1, by simp [olookup, hkk, h2]⟩

/-! ## Claim theorems: output normalization (C5, C6, C7) -/

/-- C5: for standard-JSON compiler output carrying an `errors` array of
well-formed entries, `compile_standard` returns the full parsed payload when
no entry has severity `"error"` (warnings only), and raises `SolcError`
whose message is exactly the newline-joined `formattedMessage` fields of the
error-severity entries when at least one is present. -/
theorem C5_compile_standard_errors (input_data : Json) (allow : Bool)
    (top : List (String × Json)) (es : List Json)
    (hinput : inputSourcesMissing input_data = .ok false)
    (herr : olookup "errors" top = some (.arr es))
    (hwf : ∀ e ∈ es, errWF e = true) :
    (es.any sevIsErr = false →
      compile_standard input_data allow (.obj top) = .ok (.obj top)) ∧
    (es.any sevIsErr = true →
      compile_standard input_data allow (.obj top) =
        .error (.solcError (joinNL (es.filterMap
          (fun e => if sevIsErr e then errMsgOf e else none))))) := by
  simp only [compile_standard, hinput, Bool.false_and, Bool.false_eq_true,
    if_false, herr, anyError_wf es hwf]
  constructor
  · intro hany
    simp [hany]
  · intro hany
    simp [hany, errorMessagesM_wf es hwf]

/-- C5 (witness): a single error-severity entry with formatted message `"X"`
makes the call fail with exactly the message `"X"`. -/
theorem C5_compile_standard_errors_witness :
    inputSourcesMissing exInput = .ok false ∧
    compile_standard exInput false exErrOut = .error (.solcError "X") :=
  ⟨rfl,
    (C5_compile_standard_errors exInput false
      [("errors",
        .arr [.obj [("severity", .str "error"), ("formattedMessage", .str "X")]])]
      [.obj [("severity", .str "error"), ("formattedMessage", .str "X")]]
      rfl rfl
      (by
        intro e he
        rw [List.mem_singleton] at he
        subst he
        rfl)).2 rfl⟩

/-- C6: for a combined-output payload in which a contract entry carries its
`abi` as an embedded JSON string and the source entry keyed by the part of
the contract key before the last colon carries an `AST`, a successful
`_parse_compiler_output` yields, under the contract's key, the parsed
(non-string) ABI value in place and the source's AST hoisted under the
contract's own `ast` key. -/
theorem C6_parse_output_normalizes (loads : String → Except PyErr Json)
    (top cs ss cfields srcFields : List (String × Json))
    (ckey abiStr : String) (abiV astV : Json) (res : List (String × Json))
    (hc : olookup "contracts" top = some (.obj cs))
    (hs : olookup "sources" top = some (.obj ss))
    (hck : olookup ckey cs = some (.obj cfields))
    (habi : olookup "abi" cfields = some (.str abiStr))
    (hload : loads abiStr = .ok abiV)
    (hnstr : abiV.isStr = false)
    (hsrc : olookup (rsplitColon ckey) ss = some (.obj srcFields))
    (hast : olookup "AST" srcFields = some astV)
    (hres : _parse_compiler_output loads (.obj top) = .ok res) :
    jsonField "abi" (olookup ckey res) = some abiV ∧
    abiV.isStr = false ∧
    jsonField "ast" (olookup ckey res) = some astV := by
  simp only [_parse_compiler_output, hc, hs, Option.getD_some] at hres
  obtain ⟨v, hpc, hlook⟩ :=
    processContracts_lookup loads (.obj ss) cs res ckey (.obj cfields) hres hck
  simp only [processContract,
    show jsonLoadAbi loads cfields = .ok (objSet "abi" abiV cfields) from by
      simp [jsonLoadAbi, habi, hload],
    show hoistAst (.obj ss) ckey (objSet "abi" abiV cfields) =
        .ok (objSet "ast" astV (objSet "abi" abiV cfields)) from by
      simp [hoistAst, hsrc, hast]] at hpc
  injection hpc with hpc'
  subst hpc'
  rw [hlook]
  refine ⟨?_, hnstr, ?_⟩
  · simp only [jsonField]
    rw [olookup_objSet_ne "abi" "ast" astV _ (by decide)]
    exact olookup_objSet_self "abi" abiV cfields
  · simp only [jsonField]
    exact olookup_objSet_self "ast" astV _

/-- C6 (witness): the concrete payload round-trips — the embedded `"[]"` ABI
string becomes a structured empty array and the AST is hoisted. -/
theorem C6_parse_output_normalizes_witness :
    _parse_compiler_output exLoads (.obj exTop) =
      .ok [("a.sol:A", .obj [("abi", .arr []), ("bin", .str "60fe"),
        ("ast", .obj [("name", .str "root")])])] ∧
    (jsonField "abi" (olookup "a.sol:A"
        [("a.sol:A", (.obj [("abi", .arr []), ("bin", .str "60fe"),
          ("ast", .obj [("name", .str "root")])] : Json))]) = some (.arr []) ∧
      Json.isStr (.arr []) = false ∧
      jsonField "ast" (olookup "a.sol:A"
        [("a.sol:A", (.obj [("abi", .arr []), ("bin", .str "60fe"),
          ("ast", .obj [("name", .str "root")])] : Json))]) =
        some (.obj [("name", .str "root")])) :=
  ⟨rfl,
    C6_parse_output_normalizes exLoads exTop
      [("a.sol:A", .obj [("abi", .str "[]"), ("bin", .str "60fe")])]
      [("a.sol", .obj [("AST", .obj [("name", .str "root")])])]
      [("abi", .str "[]"), ("bin", .str "60fe")]
      [("AST", .obj [("name", .str "root")])]
      "a.sol:A" "[]" (.arr []) (.obj [("name", .str "root")])
      [("a.sol:A", .obj [("abi", .arr []), ("bin", .str "60fe"),
        ("ast", .obj [("name", .str "root")])])]
      rfl rfl rfl rfl rfl rfl rfl rfl rfl⟩

/-- C7: when the parsed contracts map is empty, `compile_source` and
`compile_files` raise `ContractsNotFound` unless `allow_empty` is set, in
which case they return the empty mapping. -/
theorem C7_empty_contracts (loads : String → Except PyErr Json)
    (out : Json) (allow : Bool)
    (h : _parse_compiler_output loads out = .ok []) :
    compile_source loads allow out =
      (if allow then .ok [] else .error .contractsNotFound) ∧
    compile_files loads allow out =
      (if allow then .ok [] else .error .contractsNotFound) := by
  constructor <;> (cases allow <;> simp [compile_source, compile_files, h])

/-- C7 (witness): raw output whose contracts object is empty — failure
without `allow_empty`, empty mapping with it. -/
theorem C7_empty_contracts_witness :
    _parse_compiler_output exLoads exEmptyOut = .ok [] ∧
    compile_source exLoads false exEmptyOut = .error .contractsNotFound ∧
    compile_files exLoads true exEmptyOut = .ok [] :=
  ⟨rfl,
    (C7_empty_contracts exLoads exEmptyOut false rfl).1,
    (C7_empty_contracts exLoads exEmptyOut true rfl).2⟩

/-! ## Lemmas about substring search and slicing (for C8) -/

theorem str_data_append (x y : String) : (x ++ y).data = x.data ++ y.data := rfl

theorem subIndexAux_found (pat l : List Char) (h : leadsWith pat l = true) :
    subIndexAux pat l = some 0 := by
  cases l <;> simp [subIndexAux, h]

theorem subIndexAux_append (p : Char) (ps xs ys : List Char) (h : p ∉ xs) :
    subIndexAux (p :: ps) (xs ++ ys) =
      (subIndexAux (p :: ps) ys).map (· + xs.length) := by
  induction xs with
  | nil =>
    simp only [List.nil_append, List.length_nil]
    cases subIndexAux (p :: ps) ys <;> simp
  | cons x rest ih =>
    have hpx : p ≠ x := fun he => h (he ▸ List.mem_cons_self x rest)
    have hlw : leadsWith (p :: ps) (x :: (rest ++ ys)) = false := by
      simp [leadsWith, hpx]
    simp only [List.cons_append, List.append_eq, subIndexAux, hlw,
      Bool.false_eq_true, if_false]
    rw [ih (fun hm => h (List.mem_cons_of_mem x hm))]
    cases subIndexAux (p :: ps) ys with
    | none => simp
    | some i =>
      simp only [Option.map_some', List.length_cons, Option.some.injEq]
      omega

theorem listDropAppend (xs ys : List Char) (n : Nat) :
    (xs ++ ys).drop (xs.length + n) = ys.drop n := by
  induction xs with
  | nil => simp
  | cons x rest ih =>
    simp only [List.cons_append, List.length_cons]
    rw [show rest.length + 1 + n = (rest.length + n) + 1 from by omega]
    simp only [List.drop_succ_cons]
    exact ih

theorem listTakeAppend (xs ys : List Char) (n : Nat) :
    (xs ++ ys).take (xs.length + n) = xs ++ ys.take n := by
  induction xs with
  | nil => simp
  | cons x rest ih =>
    simp only [List.cons_append, List.length_cons]
    rw [show rest.length + 1 + n = (rest.length + n) + 1 from by omega]
    simp only [List.take_succ_cons]
    rw [ih]

/-! ## Claim theorems: version-string extraction (C8) -/

/-- C8 (counterexample): the input `"x\ny\nVersion: 0.8.1+commit.abc\n"`
contains the substring `"Version: 0.8.1+commit.abc\n"` (first conjunct, at
index 4), yet `get_solc_version_string` raises `SolcError` — it partitions at
the *first* newline, and the remainder `"y\n..."` does not start with
`"Version: "` — and `_import_version` returns `"v0.8.1"`, the v-tagged form,
not `"0.8.1"`. -/
theorem C8_counterexample :
    subIndex "x\ny\nVersion: 0.8.1+commit.abc\n" "Version: 0.8.1+commit.abc\n" =
      some 4 ∧
    get_solc_version_string "x\ny\nVersion: 0.8.1+commit.abc\n" =
      .error (.solcError "Unable to extract version string from command output") ∧
    _import_version "x\ny\nVersion: 0.8.1+commit.abc\n" = .ok "v0.8.1" :=
  ⟨rfl, rfl, rfl⟩

/-- C8 (amended): `get_solc_version_string` yields `"0.8.1"` exactly when the
`"Version: 0.8.1+..."` line is the part after the *first* newline of the
output (the first line being newline-free); and `_import_version`, for any
prefix containing neither `'V'` nor `'+'`, yields the v-tagged normalized
form `"v0.8.1"` rather than the bare `"0.8.1"`. -/
theorem C8_version_extraction_amended :
    (∀ a b : String, '\n' ∉ a.data →
      get_solc_version_string (a ++ "\nVersion: 0.8.1+" ++ b) = .ok "0.8.1") ∧
    (∀ a b : String, 'V' ∉ a.data → '+' ∉ a.data →
      _import_version (a ++ "Version: 0.8.1+" ++ b) = .ok "v0.8.1") := by
  constructor
  · intro a b hn
    have hdata : (a ++ "\nVersion: 0.8.1+" ++ b).data
        = a.data ++ ('\n' :: ("Version: 0.8.1+".data ++ b.data)) := by
      rw [str_data_append, str_data_append, List.append_assoc]
      rfl
    have hidx : subIndex (a ++ "\nVersion: 0.8.1+" ++ b) "\n"
        = some a.data.length := by
      unfold subIndex
      rw [hdata]
      rw [subIndexAux_append '\n' [] a.data
        ('\n' :: ("Version: 0.8.1+".data ++ b.data)) hn]
      rw [subIndexAux_found ['\n']
        ('\n' :: ("Version: 0.8.1+".data ++ b.data)) rfl]
      simp
    have h1 : partitionAfter (a ++ "\nVersion: 0.8.1+" ++ b) "\n"
        = String.mk ("Version: 0.8.1+".data ++ b.data) := by
      simp only [partitionAfter, hidx, hdata]
      congr 1
      rw [show a.data.length + ("\n" : String).data.length = a.data.length + 1 from rfl]
      rw [listDropAppend a.data ('\n' :: ("Version: 0.8.1+".data ++ b.data)) 1]
      rfl
    unfold get_solc_version_string
    rw [h1]
    rfl
  · intro a b hV hplus
    have hdata : (a ++ "Version: 0.8.1+" ++ b).data
        = a.data ++ ("Version: 0.8.1+".data ++ b.data) := by
      rw [str_data_append, str_data_append, List.append_assoc]
    have hdata' : (a ++ "Version: 0.8.1+" ++ b).data
        = (a.data ++ "Version: 0.8.1".data) ++ ('+' :: b.data) := by
      rw [hdata, List.append_assoc]
      rfl
    have hidx1 : subIndex (a ++ "Version: 0.8.1+" ++ b) "Version: "
        = some a.data.length := by
      unfold subIndex
      rw [hdata]
      rw [subIndexAux_append 'V' "ersion: ".data a.data
        ("Version: 0.8.1+".data ++ b.data) hV]
      rw [subIndexAux_found "Version: ".data
        ("Version: 0.8.1+".data ++ b.data) rfl]
      simp
    have hplus' : '+' ∉ a.data ++ "Version: 0.8.1".data := by
      intro hm
      rcases List.mem_append.mp hm with hm | hm
      · exact hplus hm
      · revert hm
        decide
    have hidx2 : subIndex (a ++ "Version: 0.8.1+" ++ b) "+"
        = some (a.data.length + 14) := by
      unfold subIndex
      rw [hdata']
      rw [subIndexAux_append '+' [] (a.data ++ "Version: 0.8.1".data)
        ('+' :: b.data) hplus']
      rw [subIndexAux_found ['+'] ('+' :: b.data) rfl]
      simp
    have hslice : pySlice (a ++ "Version: 0.8.1+" ++ b)
        (a.data.length + 9) (a.data.length + 14) = "0.8.1" := by
      unfold pySlice
      rw [hdata']
      rw [show a.data.length + 14 =
        (a.data ++ "Version: 0.8.1".data).length + 0 from by simp]
      rw [listTakeAppend (a.data ++ "Version: 0.8.1".data) ('+' :: b.data) 0]
      simp only [List.take_zero, List.append_nil]
      rw [listDropAppend a.data ("Version: 0.8.1".data) 9]
      rfl
    unfold _import_version
    simp only [hidx1, hidx2]
    rw [show a.data.length + 9 + 5 = a.data.length + 14 from by omega]
    rw [show (Except.ok ("v" ++ pySlice (a ++ "Version: 0.8.1+" ++ b)
        (a.data.length + 9) (a.data.length + 14)) : Except PyErr String) =
      .ok ("v" ++ "0.8.1") from by rw [hslice]]
    rfl

/-- C8 (witness): a realistic two-line `--version` output and banner-prefixed
subprocess output. -/
theorem C8_version_extraction_amended_witness :
    ('\n' ∉ ("solc, the solidity compiler commandline interface" : String).data) ∧
    get_solc_version_string
      ("solc, the solidity compiler commandline interface" ++ "\nVersion: 0.8.1+" ++
        "commit.abc.Linux.g++\n") = .ok "0.8.1" ∧
    _import_version
      ("solc, the solidity compiler commandline interface\n" ++ "Version: 0.8.1+" ++
        "commit.abc\n") = .ok "v0.8.1" :=
  ⟨by decide,
    C8_version_extraction_amended.1
      "solc, the solidity compiler commandline interface" "commit.abc.Linux.g++\n"
      (by decide),
    C8_version_extraction_amended.2
      "solc, the solidity compiler commandline interface\n" "commit.abc\n"
      (by decide) (by decide)⟩
